import Mathlib

/-!
Shallow embedding of the faceeng core: the paced FaceCheck transport and
search loop (`src/facecheck_client.py`) and the ephemeral result store of
the bot (`src/bot.py`), together with proofs about the behaviour that the
design document ascribes to them.

Timestamps are modelled as rationals (Python `time.time()` floats), HTTP
statuses as naturals, and the module-level mutable dictionaries of
`bot.py` as association lists inside an explicit `BotState` record.
-/

namespace Faceeng

/-! ## Paced transport (`FaceCheckClient._request_with_retry`,
`FaceCheckClient._wait_for_rate_limit`) -/

/-- `MAX_RETRIES = 3` from `facecheck_client.py`. -/
def MAX_RETRIES : Nat := 3

/-- `MIN_REQUEST_INTERVAL = 5` seconds from `facecheck_client.py`. -/
def MIN_REQUEST_INTERVAL : ℚ := 5

/-- Outcome of one attempted HTTP request inside `_request_with_retry`:
either a response with a status code, or an `asyncio.TimeoutError`. -/
inductive AttemptOutcome where
  | resp (status : Nat)
  | timedOut
deriving DecidableEq

/-- The retry loop of `_request_with_retry`.  `env n` is the outcome of the
`n`-th issued request, `attempt` the loop counter of
`for attempt in range(MAX_RETRIES)`, `fuel` the number of remaining loop
iterations.  Returns `(requests issued, backoff sleeps in order, returned
response status or None)`.  A 429 sleeps `30 * (attempt + 1)` seconds and
retries; a timeout sleeps `5 * (attempt + 1)` seconds (only when another
attempt remains) and retries; any other response is returned as-is; falling
off the loop returns `none` (Python `None`). -/
def retryGo (env : Nat → AttemptOutcome) : Nat → Nat → Nat × List Nat × Option Nat
  | _, 0 => (0, [], none)
  | attempt, fuel + 1 =>
    match env attempt with
    | .resp status =>
      if status = 429 then
        let res := retryGo env (attempt + 1) fuel
        (res.1 + 1, 30 * (attempt + 1) :: res.2.1, res.2.2)
      else
        (1, [], some status)
    | .timedOut =>
      let res := retryGo env (attempt + 1) fuel
      (res.1 + 1,
       (if attempt < MAX_RETRIES - 1 then [5 * (attempt + 1)] else []) ++ res.2.1,
       res.2.2)

/-- `_request_with_retry`: run the retry loop from attempt 0 with
`MAX_RETRIES` iterations available. -/
def request_with_retry (env : Nat → AttemptOutcome) : Nat × List Nat × Option Nat :=
  retryGo env 0 MAX_RETRIES

/-- `_wait_for_rate_limit`: given the stored `_last_request_time`, the
clock reading `now` at entry and the extra real time `slack ≥ 0` that
elapses while sleeping and re-reading the clock, compute
`elapsed = now - last`; when `elapsed < MIN_REQUEST_INTERVAL` suspend for
`MIN_REQUEST_INTERVAL - elapsed`.  The first component is the time at
which the request is issued, the second the updated `_last_request_time`
(written after the wait, immediately before the request, so both
coincide). -/
def wait_for_rate_limit (last now slack : ℚ) : ℚ × ℚ :=
  let elapsed := now - last
  let w := if elapsed < MIN_REQUEST_INTERVAL then MIN_REQUEST_INTERVAL - elapsed else 0
  (now + w + slack, now + w + slack)

/-! ## Search loop (`FaceCheckClient.search`) -/

/-- One poll response as consumed by `FaceCheckClient.search`: the HTTP
status, the optional `error` field of the JSON body and the extracted
`progress` value (`data.get("progress", 0) or 0`). -/
structure PollResp where
  status : Nat
  error : Option String
  progress : Nat
deriving DecidableEq

/-- Python truthiness of `data.get("error")`: absent or empty-string error
fields do not stop the loop. -/
def errTruthy : Option String → Bool
  | none => false
  | some s => decide (s ≠ "")

/-- Result of the search loop: `failed` models the Python `None` returned
on a missing/non-200 response, `errorResult msg` models
`{"error": msg}`, `completed r` the final data once `progress >= 100`,
and `stillPolling` marks that the supplied response list ran out while the
loop would have kept polling. -/
inductive SearchOutcome where
  | failed
  | errorResult (msg : String)
  | completed (r : PollResp)
  | stillPolling
deriving DecidableEq

/-- The polling loop of `FaceCheckClient.search` over a list of poll
responses, threading `last_progress` (initially `-1`).  Returns
`(progress values passed to on_progress in order,
  number of poll requests issued, outcome)`.
Per iteration, exactly as in the source: a missing/non-200 response
returns `None`; then a truthy `error` field returns `{"error": ...}`;
then `on_progress` fires iff `progress > last_progress` and
`progress % 20 == 0` (updating `last_progress`); then `progress >= 100`
returns the data; otherwise the loop sleeps and polls again. -/
def search_loop : Int → List PollResp → List Nat × Nat × SearchOutcome
  | _, [] => ([], 0, .stillPolling)
  | last, r :: rest =>
    if r.status ≠ 200 then ([], 1, .failed)
    else if errTruthy r.error then ([], 1, .errorResult (r.error.getD ""))
    else if last < (r.progress : Int) ∧ r.progress % 20 = 0 then
      if 100 ≤ r.progress then ([r.progress], 1, .completed r)
      else
        let res := search_loop (r.progress : Int) rest
        (r.progress :: res.1, res.2.1 + 1, res.2.2)
    else
      if 100 ≤ r.progress then ([], 1, .completed r)
      else
        let res := search_loop last rest
        (res.1, res.2.1 + 1, res.2.2)

/-- The progress values that the loop actually processes: the responses up
to and including the first one that terminates the loop (bad status,
truthy error — contributing nothing — or `progress >= 100`). -/
def pollProgressList : List PollResp → List Nat
  | [] => []
  | r :: rest =>
    if r.status ≠ 200 then []
    else if errTruthy r.error then []
    else if 100 ≤ r.progress then [r.progress]
    else r.progress :: pollProgressList rest

/-- The notification filter of the loop in isolation: from a stream of
processed progress values, keep those with `last < p` and `p % 20 = 0`,
updating `last` on every kept value. -/
def notifyAll : Int → List Nat → List Nat
  | _, [] => []
  | last, p :: ps =>
    if last < (p : Int) ∧ p % 20 = 0 then p :: notifyAll (p : Int) ps
    else notifyAll last ps

/-! ## Ephemeral result store (`bot.py`) -/

/-- `RESULTS_EXPIRATION_SECONDS = 30 * 60` from `bot.py`. -/
def RESULTS_EXPIRATION_SECONDS : ℚ := 30 * 60

/-- `REMINDER_DELAY_SECONDS = 25 * 60` from `bot.py`. -/
def REMINDER_DELAY_SECONDS : ℚ := 25 * 60

/-- A stored search result: the dict placed into `pending_results`, with
its `_created_at` timestamp, the `_unlocked` flag (absent at insertion,
read back via `.get("_unlocked", False)`), and the
`output["items"]` list abstracted to `(score, url)` pairs. -/
structure Entry where
  createdAt : ℚ
  unlocked : Bool
  items : List (Nat × String)
deriving DecidableEq

/-- Keyed lookup in an association list, modelling Python dict access. -/
def lookupKey {β : Type} : List (String × β) → String → Option β
  | [], _ => none
  | (k, v) :: rest, sid => if k = sid then some v else lookupKey rest sid

/-- Keyed insert/replace, modelling Python dict assignment `d[sid] = v`. -/
def insertKey {β : Type} : List (String × β) → String → β → List (String × β)
  | [], sid, v => [(sid, v)]
  | (k, w) :: rest, sid, v =>
    if k = sid then (k, v) :: rest else (k, w) :: insertKey rest sid v

/-- Keyed removal, modelling Python `del d[sid]` (guarded by membership in
the source, hence a no-op when the key is absent). -/
def removeKey {β : Type} : List (String × β) → String → List (String × β)
  | [], _ => []
  | (k, v) :: rest, sid =>
    if k = sid then removeKey rest sid else (k, v) :: removeKey rest sid

/-- Keys of an association list are pairwise distinct — the defining
property of the Python dicts being modelled. -/
def KeysNodup {β : Type} (l : List (String × β)) : Prop :=
  (l.map Prod.fst).Nodup

/-- The module-level mutable state of `bot.py` relevant to the result
store: `pending_results` and the reminder registry `pending_reminders`
(each live timer recorded with its absolute firing time). -/
structure BotState where
  pendingResults : List (String × Entry)
  pendingReminders : List (String × ℚ)
deriving DecidableEq

/-- `is_result_expired` from `bot.py`: a missing id is expired; otherwise
the entry is expired iff `now - _created_at > RESULTS_EXPIRATION_SECONDS`. -/
def is_result_expired (s : BotState) (sid : String) (now : ℚ) : Bool :=
  match lookupKey s.pendingResults sid with
  | none => true
  | some e => decide (now - e.createdAt > RESULTS_EXPIRATION_SECONDS)

/-- The read performed by `cmd_debug`: it only tests
`search_id in pending_results` and then uses the entry, with no call to
`is_result_expired`. -/
def cmd_debug_lookup (s : BotState) (sid : String) : Option Entry :=
  lookupKey s.pendingResults sid

/-- The gate of the single-unlock payment branch of
`handle_successful_payment`:
`search_id in pending_results and not is_result_expired(search_id)`. -/
def unlock_single_visible (s : BotState) (sid : String) (now : ℚ) : Bool :=
  (lookupKey s.pendingResults sid).isSome && !(is_result_expired s sid now)

/-- The `unlock_all_` payment branch of `handle_successful_payment`:
first cancel and drop any pending reminder for the id (unconditionally,
before any check), then, if the id is present and not expired, set
`_unlocked = True` and report success; otherwise report
"Results expired".  The boolean is the success of the unlock. -/
def unlock_all (s : BotState) (sid : String) (now : ℚ) : BotState × Bool :=
  match lookupKey s.pendingResults sid with
  | none => ({ s with pendingReminders := removeKey s.pendingReminders sid }, false)
  | some e =>
    if is_result_expired s sid now then
      ({ s with pendingReminders := removeKey s.pendingReminders sid }, false)
    else
      ({ s with
          pendingResults := insertKey s.pendingResults sid { e with unlocked := true },
          pendingReminders := removeKey s.pendingReminders sid }, true)

/-- The body of `schedule_expiry_reminder` once its sleep elapses: send the
reminder iff the entry still exists and is still not `_unlocked`; in every
case the task removes itself from `pending_reminders`.  The boolean
records whether the notifier message was sent. -/
def reminder_fire (s : BotState) (sid : String) : BotState × Bool :=
  match lookupKey s.pendingResults sid with
  | none => ({ s with pendingReminders := removeKey s.pendingReminders sid }, false)
  | some e =>
    ({ s with pendingReminders := removeKey s.pendingReminders sid }, !e.unlocked)

/-- The store insertion shared by both search paths:
`result["_created_at"] = time.time(); pending_results[search_id] = result`. -/
def store_search_result (s : BotState) (sid : String)
    (items : List (Nat × String)) (now : ℚ) : BotState :=
  { s with
      pendingResults :=
        insertKey s.pendingResults sid { createdAt := now, unlocked := false, items := items } }

/-- The store effect of `execute_free_search`: insert the result, then
create the reminder task (firing `REMINDER_DELAY_SECONDS` later) and
register it in `pending_reminders`. -/
def execute_free_search_store (s : BotState) (sid : String)
    (items : List (Nat × String)) (now : ℚ) : BotState :=
  let s1 := store_search_result s sid items now
  { s1 with
      pendingReminders := insertKey s1.pendingReminders sid (now + REMINDER_DELAY_SECONDS) }

/-- The store effect of `execute_paid_search`: insert the result.  The
paid path registers no reminder task. -/
def execute_paid_search_store (s : BotState) (sid : String)
    (items : List (Nat × String)) (now : ℚ) : BotState :=
  store_search_result s sid items now

/-! ## Single-flight gate (`FaceCheckClient.find_face`)

Two concurrent callers of `find_face` are modelled as tasks `true` and
`false`.  Each caller acquires the client's `asyncio.Lock`, performs its
network calls (one upload followed by its polls — `k + 1` calls in all),
and releases the lock.  The trace records, in order, which task issued
each network request. -/

/-- Control state of one `find_face` caller. -/
inductive TaskPc where
  | idle
  | running (k : Nat)
  | finished
deriving DecidableEq

/-- Joint state of the lock and the two callers. -/
structure GateState where
  lock : Option Bool
  pcT : TaskPc
  pcF : TaskPc
deriving DecidableEq

/-- Program counter of task `i`. -/
def pcOf (s : GateState) (i : Bool) : TaskPc :=
  if i then s.pcT else s.pcF

/-- Replace the program counter of task `i`. -/
def setPc (s : GateState) (i : Bool) (p : TaskPc) : GateState :=
  if i then { s with pcT := p } else { s with pcF := p }

/-- Interleaving semantics of `find_face` under `async with self._lock`:
a task acquires the free lock before its first network call, each network
call requires holding the lock and appends the task's id to the trace,
and the lock is released only after the task's last call. -/
inductive GateStep : GateState → List Bool → GateState → List Bool → Prop where
  | acquire {s : GateState} {tr : List Bool} (i : Bool) (k : Nat) :
      s.lock = none → pcOf s i = .idle →
      GateStep s tr { setPc s i (.running (k + 1)) with lock := some i } tr
  | emit {s : GateState} {tr : List Bool} (i : Bool) (k : Nat) :
      s.lock = some i → pcOf s i = .running (k + 1) →
      GateStep s tr (setPc s i (.running k)) (tr ++ [i])
  | release {s : GateState} {tr : List Bool} (i : Bool) :
      s.lock = some i → pcOf s i = .running 0 →
      GateStep s tr { setPc s i .finished with lock := none } tr

/-- States and traces reachable from two idle callers and a free lock. -/
inductive GateReach : GateState → List Bool → Prop where
  | init : GateReach ⟨none, .idle, .idle⟩ []
  | step {s tr s' tr'} : GateReach s tr → GateStep s tr s' tr' → GateReach s' tr'

/-- A trace never interleaves the requests of two callers: whenever a
task's requests reappear after another task's request, the two tasks are
equal. -/
def noInterleave (tr : List Bool) : Prop :=
  ∀ (u v w x : List Bool) (a b : Bool), tr = u ++ a :: v ++ b :: w ++ a :: x → a = b

/-- Once `i` occurs in the trace, everything after it is `i`. -/
def suffixHomog (i : Bool) (tr : List Bool) : Prop :=
  ∀ u v, tr = u ++ i :: v → ∀ x ∈ v, x = i

/-- Inductive invariant tying the gate state to the trace shape. -/
def GateInv (s : GateState) (tr : List Bool) : Prop :=
  noInterleave tr
  ∧ (∀ i : Bool, pcOf s i = .idle → i ∉ tr)
  ∧ (∀ i : Bool, s.lock = some i → suffixHomog i tr)
  ∧ (∀ (i : Bool) (k : Nat), pcOf s i = .running k → s.lock = some i)

/-! ## Transport proofs -/

/-- Claim C2: given three consecutive HTTP 429 responses, the transport's
request-with-retry issues exactly 3 attempts, backs off 30 s, 60 s and
90 s after attempts 1, 2 and 3 respectively, never issues a 4th request
(`env` is arbitrary beyond index 2, so nothing past the third outcome is
consulted), and after exhausting the retries returns the failure value
(Python `None`) that the code produces on rate-limit exhaustion. -/
theorem c2_rate_limit_retry (env : Nat → AttemptOutcome)
    (h0 : env 0 = .resp 429) (h1 : env 1 = .resp 429) (h2 : env 2 = .resp 429) :
    request_with_retry env = (3, [30, 60, 90], none) := by
  simp [request_with_retry, MAX_RETRIES, retryGo, h0, h1, h2]

/-- Witness for C2: a transport that always answers 429. -/
theorem c2_rate_limit_retry_witness :
    request_with_retry (fun _ => .resp 429) = (3, [30, 60, 90], none) :=
  c2_rate_limit_retry (fun _ => .resp 429) rfl rfl rfl

/-- Claim C6: the rate-limit governor updates `_last_request_time` to the
moment the request is issued (first conjunct), and for two consecutive
sends — the second entered at an arbitrary later clock reading `now2`,
with nonnegative scheduler slack — the start times are at least
`MIN_REQUEST_INTERVAL = 5` seconds apart. -/
theorem c6_min_interval (last now1 slack1 now2 slack2 : ℚ)
    (hslack : 0 ≤ slack2) :
    (wait_for_rate_limit last now1 slack1).2 = (wait_for_rate_limit last now1 slack1).1
    ∧ MIN_REQUEST_INTERVAL ≤
        (wait_for_rate_limit (wait_for_rate_limit last now1 slack1).2 now2 slack2).1
          - (wait_for_rate_limit last now1 slack1).2 := by
  refine ⟨rfl, ?_⟩
  generalize (wait_for_rate_limit last now1 slack1).2 = t1
  simp only [wait_for_rate_limit, MIN_REQUEST_INTERVAL] at *
  split_ifs with h
  · linarith
  · linarith

/-- Witness for C6: back-to-back sends starting from `_last_request_time = 0`. -/
theorem c6_min_interval_witness :
    (wait_for_rate_limit 0 0 0).2 = (wait_for_rate_limit 0 0 0).1
    ∧ MIN_REQUEST_INTERVAL ≤
        (wait_for_rate_limit (wait_for_rate_limit 0 0 0).2 5 0).1
          - (wait_for_rate_limit 0 0 0).2 :=
  c6_min_interval 0 0 0 5 0 le_rfl

/-! ## Search-loop proofs -/

/-- The notifications of the loop are the notification filter applied to
the processed progress values. -/
lemma search_loop_notifs (rs : List PollResp) :
    ∀ last : Int, (search_loop last rs).1 = notifyAll last (pollProgressList rs) := by
  induction rs with
  | nil => intro last; rfl
  | cons r rest ih =>
    intro last
    by_cases h1 : r.status ≠ 200
    · simp [search_loop, pollProgressList, h1, notifyAll]
    · by_cases h2 : errTruthy r.error
      · simp [search_loop, pollProgressList, h1, h2, notifyAll]
      · by_cases h4 : 100 ≤ r.progress
        · by_cases h3 : last < (r.progress : Int) ∧ r.progress % 20 = 0
          · simp [search_loop, pollProgressList, h1, h2, h3, h4, notifyAll]
          · simp [search_loop, pollProgressList, h1, h2, h3, h4, notifyAll]
        · by_cases h3 : last < (r.progress : Int) ∧ r.progress % 20 = 0
          · simp [search_loop, pollProgressList, h1, h2, h3, h4, notifyAll, ih]
          · simp [search_loop, pollProgressList, h1, h2, h3, h4, notifyAll, ih]

/-- Every notified value exceeds the threaded `last` and is a multiple
of 20. -/
lemma notifyAll_mem (ps : List Nat) :
    ∀ (last : Int) (q : Nat), q ∈ notifyAll last ps → last < (q : Int) ∧ q % 20 = 0 := by
  induction ps with
  | nil => intro last q hq; simp [notifyAll] at hq
  | cons p rest ih =>
    intro last q hq
    simp only [notifyAll] at hq
    by_cases h : last < (p : Int) ∧ p % 20 = 0
    · rw [if_pos h] at hq
      rcases List.mem_cons.mp hq with rfl | hq'
      · exact h
      · have h' := ih p q hq'
        exact ⟨lt_trans h.1 h'.1, h'.2⟩
    · rw [if_neg h] at hq
      exact ih last q hq

/-- The notified values are strictly increasing. -/
lemma notifyAll_pairwise (ps : List Nat) :
    ∀ last : Int, List.Pairwise (· < ·) (notifyAll last ps) := by
  induction ps with
  | nil => intro last; simp [notifyAll]
  | cons p rest ih =>
    intro last
    simp only [notifyAll]
    by_cases h : last < (p : Int) ∧ p % 20 = 0
    · rw [if_pos h]
      refine List.pairwise_cons.mpr ⟨fun q hq => ?_, ih p⟩
      exact_mod_cast (notifyAll_mem rest p q hq).1
    · rw [if_neg h]
      exact ih last

/-- On a non-decreasing stream, a value is notified iff it occurs in the
stream, is a multiple of 20 and exceeds the threaded `last`. -/
lemma notifyAll_mem_iff (ps : List Nat) :
    ∀ (last : Int) (q : Nat), List.Pairwise (· ≤ ·) ps →
      (q ∈ notifyAll last ps ↔ q ∈ ps ∧ q % 20 = 0 ∧ last < (q : Int)) := by
  induction ps with
  | nil => intro last q _; simp [notifyAll]
  | cons p rest ih =>
    intro last q hs
    obtain ⟨hple, hrest⟩ := List.pairwise_cons.mp hs
    simp only [notifyAll]
    by_cases h : last < (p : Int) ∧ p % 20 = 0
    · rw [if_pos h]
      constructor
      · intro hq
        rcases List.mem_cons.mp hq with rfl | hq'
        · exact ⟨List.mem_cons_self _ _, h.2, h.1⟩
        · have h' := (ih p q hrest).mp hq'
          exact ⟨List.mem_cons_of_mem _ h'.1, h'.2.1, lt_trans h.1 h'.2.2⟩
      · rintro ⟨hmem, hq20, hlast⟩
        rcases List.mem_cons.mp hmem with rfl | hmem'
        · exact List.mem_cons_self _ _
        · rcases eq_or_lt_of_le (hple q hmem') with rfl | hlt
          · exact List.mem_cons_self _ _
          · exact List.mem_cons_of_mem _
              ((ih p q hrest).mpr ⟨hmem', hq20, by exact_mod_cast hlt⟩)
    · rw [if_neg h, ih last q hrest]
      constructor
      · rintro ⟨hmem, hq20, hlast⟩
        exact ⟨List.mem_cons_of_mem _ hmem, hq20, hlast⟩
      · rintro ⟨hmem, hq20, hlast⟩
        rcases List.mem_cons.mp hmem with rfl | hmem'
        · exact absurd ⟨hlast, hq20⟩ h
        · exact ⟨hmem', hq20, hlast⟩

/-- The processed progress values form a sublist of all reported progress
values. -/
lemma pollProgressList_sublist (rs : List PollResp) :
    (pollProgressList rs).Sublist (rs.map PollResp.progress) := by
  induction rs with
  | nil => simp [pollProgressList]
  | cons r rest ih =>
    simp only [pollProgressList, List.map_cons]
    by_cases h1 : r.status ≠ 200
    · simp [h1]
    · rw [if_neg h1]
      by_cases h2 : errTruthy r.error
      · simp [h2]
      · rw [if_neg (by simp [h2])]
        by_cases h3 : 100 ≤ r.progress
        · rw [if_pos h3]
          exact (List.nil_sublist _).cons₂ _
        · rw [if_neg h3]
          exact ih.cons₂ _

/-- Counterexample to claim C1 as stated: on the monotone poll sequence
that reports 100 at once, the progress sink is invoked with the value 100,
which lies outside {20, 40, 60, 80}, and the crossed multiples 20, 40, 60
and 80 are never notified. -/
theorem c1_counterexample :
    (search_loop (-1) [⟨200, none, 100⟩]).1 = [100]
    ∧ (100 : Nat) ∉ ([20, 40, 60, 80] : List Nat) := by
  constructor
  · rfl
  · decide

/-- Claim C1 as amended: for poll sequences with OK statuses, no error
field, non-decreasing progress ending at 100, the progress sink is
invoked exactly once per distinct processed progress value that is a
multiple of 20 — including 0 and 100, and excluding multiples that are
crossed but never exactly reported — in strictly increasing order, never
twice for the same value. -/
theorem c1_progress_policy (rs : List PollResp)
    (_hok : ∀ r ∈ rs, r.status = 200 ∧ errTruthy r.error = false)
    (hmono : List.Pairwise (· ≤ ·) (rs.map PollResp.progress))
    (_hend : (rs.map PollResp.progress).getLast? = some 100) :
    List.Pairwise (· < ·) (search_loop (-1) rs).1
    ∧ (∀ q ∈ (search_loop (-1) rs).1, q % 20 = 0)
    ∧ (∀ q : Nat, q ∈ (search_loop (-1) rs).1 ↔ q ∈ pollProgressList rs ∧ q % 20 = 0) := by
  rw [search_loop_notifs rs (-1)]
  refine ⟨notifyAll_pairwise _ _, fun q hq => (notifyAll_mem _ _ q hq).2, fun q => ?_⟩
  have hsorted : List.Pairwise (· ≤ ·) (pollProgressList rs) :=
    hmono.sublist (pollProgressList_sublist rs)
  rw [notifyAll_mem_iff _ _ q hsorted]
  constructor
  · rintro ⟨h1, h2, _⟩
    exact ⟨h1, h2⟩
  · rintro ⟨h1, h2⟩
    refine ⟨h1, h2, by omega⟩

/-- Witness for the amended C1: the two-response monotone sequence
reporting 20 then 100. -/
theorem c1_progress_policy_witness :
    List.Pairwise (· < ·) (search_loop (-1) [⟨200, none, 20⟩, ⟨200, none, 100⟩]).1
    ∧ (∀ q ∈ (search_loop (-1) [⟨200, none, 20⟩, ⟨200, none, 100⟩]).1, q % 20 = 0)
    ∧ (∀ q : Nat, q ∈ (search_loop (-1) [⟨200, none, 20⟩, ⟨200, none, 100⟩]).1 ↔
        q ∈ pollProgressList [⟨200, none, 20⟩, ⟨200, none, 100⟩] ∧ q % 20 = 0) :=
  c1_progress_policy [⟨200, none, 20⟩, ⟨200, none, 100⟩]
    (by decide) (by decide) (by decide)

/-- Claim C5: if a poll response carries a (truthy) error field, the loop
answers the server-error outcome with that message after consuming
exactly the responses up to and including the erroneous one — for every
continuation `post`, so no further poll request is ever issued,
regardless of the progress value in the erroneous response. -/
theorem c5_stop_on_error (pre post : List PollResp) (r : PollResp) (msg : String)
    (hpre : ∀ p ∈ pre, p.status = 200 ∧ errTruthy p.error = false ∧ p.progress < 100)
    (hst : r.status = 200) (herr : r.error = some msg) (hmsg : msg ≠ "") :
    ∀ last : Int,
      (search_loop last (pre ++ r :: post)).2
        = (pre.length + 1, SearchOutcome.errorResult msg) := by
  induction pre with
  | nil =>
    intro last
    simp only [List.nil_append, search_loop]
    rw [if_neg (by simp [hst])]
    rw [if_pos (by simp [errTruthy, herr, hmsg])]
    simp [herr]
  | cons p pre' ih =>
    intro last
    obtain ⟨hp1, hp2, hp3⟩ := hpre p (List.mem_cons_self _ _)
    have hpre' : ∀ q ∈ pre', q.status = 200 ∧ errTruthy q.error = false ∧ q.progress < 100 :=
      fun q hq => hpre q (List.mem_cons_of_mem _ hq)
    have ih' := ih hpre'
    simp only [List.cons_append, search_loop]
    rw [if_neg (by simp [hp1])]
    rw [if_neg (by simp [hp2])]
    by_cases hn : last < (p.progress : Int) ∧ p.progress % 20 = 0
    · rw [if_pos hn, if_neg (by omega : ¬ 100 ≤ p.progress)]
      have h := ih' (p.progress : Int)
      simp [List.append_eq, h, List.length_cons]
    · rw [if_neg hn, if_neg (by omega : ¬ 100 ≤ p.progress)]
      have h := ih' last
      simp [List.append_eq, h, List.length_cons]

/-- Witness for C5: one clean poll at 40 %, then a response carrying
`error = "quota exceeded"` (still at progress 40), then a would-be
completion that is never requested. -/
theorem c5_stop_on_error_witness :
    (search_loop (-1)
        ([⟨200, none, 40⟩] ++ ⟨200, some "quota exceeded", 40⟩ :: [⟨200, none, 100⟩])).2
      = (2, SearchOutcome.errorResult "quota exceeded") :=
  c5_stop_on_error [⟨200, none, 40⟩] [⟨200, none, 100⟩]
    ⟨200, some "quota exceeded", 40⟩ "quota exceeded"
    (by decide) rfl rfl (by decide) (-1)

/-! ## Result-store proofs -/

/-- Insert-then-lookup at the same key returns the inserted value. -/
lemma lookupKey_insertKey_self {β : Type} (l : List (String × β)) (sid : String) (v : β) :
    lookupKey (insertKey l sid v) sid = some v := by
  induction l with
  | nil => simp [insertKey, lookupKey]
  | cons hd rest ih =>
    obtain ⟨k, w⟩ := hd
    by_cases hk : k = sid
    · simp [insertKey, lookupKey, hk]
    · simp [insertKey, lookupKey, hk, ih]

/-- Remove-then-lookup at the same key returns nothing. -/
lemma lookupKey_removeKey_self {β : Type} (l : List (String × β)) (sid : String) :
    lookupKey (removeKey l sid) sid = none := by
  induction l with
  | nil => simp [removeKey, lookupKey]
  | cons hd rest ih =>
    obtain ⟨k, w⟩ := hd
    by_cases hk : k = sid
    · simp [removeKey, hk, ih]
    · simp [removeKey, lookupKey, hk, ih]

/-- A key present after an insert was present before or is the inserted
one. -/
lemma mem_keys_insertKey {β : Type} (l : List (String × β)) (sid x : String) (v : β) :
    x ∈ (insertKey l sid v).map Prod.fst → x ∈ l.map Prod.fst ∨ x = sid := by
  induction l with
  | nil => simp [insertKey]
  | cons hd rest ih =>
    obtain ⟨k, w⟩ := hd
    by_cases hk : k = sid
    · intro hx
      left
      simpa [insertKey, hk] using hx
    · simp only [insertKey, if_neg hk, List.map_cons, List.mem_cons]
      rintro (rfl | hx)
      · exact Or.inl (Or.inl rfl)
      · rcases ih hx with h | h
        · exact Or.inl (Or.inr h)
        · exact Or.inr h

/-- Dict-style insertion keeps keys pairwise distinct. -/
lemma keysNodup_insertKey {β : Type} (l : List (String × β)) (sid : String) (v : β)
    (h : KeysNodup l) : KeysNodup (insertKey l sid v) := by
  induction l with
  | nil => simp [insertKey, KeysNodup]
  | cons hd rest ih =>
    obtain ⟨k, w⟩ := hd
    simp only [KeysNodup, List.map_cons, List.nodup_cons] at h
    obtain ⟨hk1, hk2⟩ := h
    by_cases hk : k = sid
    · simpa [KeysNodup, insertKey, hk] using ⟨by simpa [hk] using hk1, hk2⟩
    · simp only [KeysNodup, insertKey, if_neg hk, List.map_cons, List.nodup_cons]
      refine ⟨fun hmem => ?_, ih hk2⟩
      rcases mem_keys_insertKey rest sid k v hmem with hmem' | hmem'
      · exact hk1 hmem'
      · exact hk hmem'

/-- `is_result_expired` on a present entry is the age test. -/
lemma is_result_expired_some {s : BotState} {sid : String} {e : Entry} (now : ℚ)
    (he : lookupKey s.pendingResults sid = some e) :
    is_result_expired s sid now
      = decide (now - e.createdAt > RESULTS_EXPIRATION_SECONDS) := by
  unfold is_result_expired
  rw [he]

/-- `unlock_all` always leaves the reminder registry with the id removed. -/
lemma unlock_all_reminders (s : BotState) (sid : String) (now : ℚ) :
    (unlock_all s sid now).1.pendingReminders = removeKey s.pendingReminders sid := by
  unfold unlock_all
  cases hk : lookupKey s.pendingResults sid with
  | none => rfl
  | some e =>
    by_cases hexp : is_result_expired s sid now
    · simp [hexp]
    · simp [hexp]

/-- `unlock_all` on a present, fresh entry: full characterisation. -/
lemma unlock_all_success {s : BotState} {sid : String} {now : ℚ} {e : Entry}
    (he : lookupKey s.pendingResults sid = some e)
    (hfresh : now - e.createdAt ≤ RESULTS_EXPIRATION_SECONDS) :
    unlock_all s sid now
      = ({ pendingResults := insertKey s.pendingResults sid { e with unlocked := true },
           pendingReminders := removeKey s.pendingReminders sid }, true) := by
  have hexp : is_result_expired s sid now = false := by
    rw [is_result_expired_some now he, decide_eq_false_iff_not]
    exact not_lt.mpr hfresh
  unfold unlock_all
  rw [he]
  simp [hexp]

/-- `unlock_all` on a missing or expired id reports failure and leaves
the results map unchanged. -/
lemma unlock_all_fail {s : BotState} {sid : String} {now : ℚ}
    (h : lookupKey s.pendingResults sid = none ∨ is_result_expired s sid now = true) :
    (unlock_all s sid now).2 = false
    ∧ (unlock_all s sid now).1.pendingResults = s.pendingResults := by
  unfold unlock_all
  cases hk : lookupKey s.pendingResults sid with
  | none => exact ⟨rfl, rfl⟩
  | some e =>
    rcases h with h | h
    · exact absurd (hk.symm.trans h) (by simp)
    · simp [h]

/-- Claim C10: a search id that was never inserted (or has been deleted)
is classified as expired by the expiry predicate, which is a total
function (no exception is possible). -/
theorem c10_missing_is_expired (s : BotState) (sid : String) (now : ℚ)
    (h : lookupKey s.pendingResults sid = none) :
    is_result_expired s sid now = true := by
  unfold is_result_expired
  rw [h]

/-- Witness for C10: the empty store. -/
theorem c10_missing_is_expired_witness :
    is_result_expired ⟨[], []⟩ "S1" 0 = true :=
  c10_missing_is_expired ⟨[], []⟩ "S1" 0 rfl

/-- Counterexample to claim C3 as stated: an entry created at time 0 is
expired at time 2000 (2000 - 0 > 30*60), yet the last-search debug read
still returns it — that read path does not treat the expired entry as
absent. -/
theorem c3_counterexample :
    is_result_expired ⟨[("S1", ⟨0, false, []⟩)], []⟩ "S1" 2000 = true
    ∧ cmd_debug_lookup ⟨[("S1", ⟨0, false, []⟩)], []⟩ "S1" = some ⟨0, false, []⟩ := by
  constructor
  · norm_num [is_result_expired, lookupKey, RESULTS_EXPIRATION_SECONDS]
  · simp [cmd_debug_lookup, lookupKey]

/-- Claim C3 as amended: for a stored entry created at `t0`, the expiry
predicate classifies it as expired exactly when `now - t0 > 30*60`, and
the unlock read paths (single and unlock-all) treat it as present exactly
when `now - t0 ≤ 30*60`; the last-search debug read, however, checks only
physical presence and returns the entry regardless of its age. -/
theorem c3_expiry_read_paths (s : BotState) (sid : String) (now : ℚ) (e : Entry)
    (he : lookupKey s.pendingResults sid = some e) :
    (is_result_expired s sid now = true ↔ now - e.createdAt > RESULTS_EXPIRATION_SECONDS)
    ∧ (unlock_single_visible s sid now = true ↔ now - e.createdAt ≤ RESULTS_EXPIRATION_SECONDS)
    ∧ ((unlock_all s sid now).2 = true ↔ now - e.createdAt ≤ RESULTS_EXPIRATION_SECONDS)
    ∧ cmd_debug_lookup s sid = some e := by
  have hexp := is_result_expired_some now he
  refine ⟨by simp [hexp], ?_, ?_, he⟩
  · simp [unlock_single_visible, hexp, he, not_lt]
  · constructor
    · intro h
      by_contra hc
      have : is_result_expired s sid now = true := by simp [hexp]; linarith [not_le.mp hc]
      have hfail := (unlock_all_fail (Or.inr this)).1
      rw [h] at hfail
      exact absurd hfail (by decide)
    · intro h
      rw [unlock_all_success he h]

/-- Witness for the amended C3: a fresh entry read at time 100. -/
theorem c3_expiry_read_paths_witness :
    (is_result_expired ⟨[("S1", ⟨0, false, []⟩)], []⟩ "S1" 100 = true
      ↔ (100 : ℚ) - 0 > RESULTS_EXPIRATION_SECONDS)
    ∧ (unlock_single_visible ⟨[("S1", ⟨0, false, []⟩)], []⟩ "S1" 100 = true
      ↔ (100 : ℚ) - 0 ≤ RESULTS_EXPIRATION_SECONDS)
    ∧ ((unlock_all ⟨[("S1", ⟨0, false, []⟩)], []⟩ "S1" 100).2 = true
      ↔ (100 : ℚ) - 0 ≤ RESULTS_EXPIRATION_SECONDS)
    ∧ cmd_debug_lookup ⟨[("S1", ⟨0, false, []⟩)], []⟩ "S1" = some ⟨0, false, []⟩ :=
  c3_expiry_read_paths ⟨[("S1", ⟨0, false, []⟩)], []⟩ "S1" 100 ⟨0, false, []⟩ rfl

/-- Counterexample to claim C4 as stated: unlocking an expired search id
whose reminder timer is still registered reports failure, yet the timer
registry does not stay unchanged — the timer is cancelled and removed
before the expiry check. -/
theorem c4_counterexample :
    (unlock_all ⟨[("S1", ⟨0, false, []⟩)], [("S1", 1500)]⟩ "S1" 2000).2 = false
    ∧ (unlock_all ⟨[("S1", ⟨0, false, []⟩)], [("S1", 1500)]⟩ "S1" 2000).1.pendingReminders = []
    ∧ ([("S1", (1500 : ℚ))] : List (String × ℚ)) ≠ [] := by
  have hexp : is_result_expired ⟨[("S1", ⟨0, false, []⟩)], [("S1", 1500)]⟩ "S1" 2000 = true := by
    norm_num [is_result_expired, lookupKey, RESULTS_EXPIRATION_SECONDS]
  refine ⟨(unlock_all_fail (Or.inr hexp)).1, ?_, by simp⟩
  rw [unlock_all_reminders]
  simp [removeKey]

/-- Claim C4 as amended: the unlock-all operation always first cancels
and removes any pending reminder timer for the id (so the registry is
unchanged only when no timer was registered); on a present, non-expired
entry it sets the unlocked flag and reports success; on a nonexistent or
expired id it reports failure ("results expired") and leaves the results
map unchanged. -/
theorem c4_unlock_all_behaviour (s : BotState) (sid : String) (now : ℚ) :
    (unlock_all s sid now).1.pendingReminders = removeKey s.pendingReminders sid
    ∧ ((unlock_all s sid now).2 = false →
        (unlock_all s sid now).1.pendingResults = s.pendingResults)
    ∧ (∀ e : Entry, lookupKey s.pendingResults sid = some e →
        now - e.createdAt ≤ RESULTS_EXPIRATION_SECONDS →
        (unlock_all s sid now).2 = true
        ∧ lookupKey (unlock_all s sid now).1.pendingResults sid
            = some { e with unlocked := true })
    ∧ ((lookupKey s.pendingResults sid = none ∨ is_result_expired s sid now = true) →
        (unlock_all s sid now).2 = false) := by
  refine ⟨unlock_all_reminders s sid now, ?_, ?_, fun h => (unlock_all_fail h).1⟩
  · intro hf
    cases hk : lookupKey s.pendingResults sid with
    | none => exact (unlock_all_fail (Or.inl hk)).2
    | some e =>
      by_cases hexp : is_result_expired s sid now
      · exact (unlock_all_fail (Or.inr hexp)).2
      · have hfresh : now - e.createdAt ≤ RESULTS_EXPIRATION_SECONDS := by
          have := is_result_expired_some (e := e) now hk
          rw [this] at hexp
          simpa [not_lt] using hexp
        rw [unlock_all_success hk hfresh] at hf
        exact absurd hf (by simp)
  · intro e he hfresh
    rw [unlock_all_success he hfresh]
    exact ⟨rfl, lookupKey_insertKey_self _ _ _⟩

/-- Witness for the amended C4: a fresh entry with a registered timer,
unlocked at time 100. -/
theorem c4_unlock_all_behaviour_witness :
    (unlock_all ⟨[("S1", ⟨0, false, []⟩)], [("S1", 1500)]⟩ "S1" 100).2 = true
    ∧ lookupKey (unlock_all ⟨[("S1", ⟨0, false, []⟩)], [("S1", 1500)]⟩ "S1" 100).1.pendingResults
        "S1" = some ⟨0, true, []⟩ :=
  (c4_unlock_all_behaviour ⟨[("S1", ⟨0, false, []⟩)], [("S1", 1500)]⟩ "S1" 100).2.2.1
    ⟨0, false, []⟩ rfl (by norm_num [RESULTS_EXPIRATION_SECONDS])

/-- Claim C7: a firing reminder re-checks its entry — a missing entry or
an already-unlocked entry suppresses the notifier; and when an entry is
unlocked (present and fresh) before the reminder delay elapses, the timer
is deregistered and even a hypothetical late firing is suppressed, so the
notifier is never invoked for that id. -/
theorem c7_reminder_guard (s : BotState) (sid : String) (now : ℚ) (e : Entry)
    (he : lookupKey s.pendingResults sid = some e)
    (hfresh : now - e.createdAt ≤ RESULTS_EXPIRATION_SECONDS) :
    (∀ t : BotState, lookupKey t.pendingResults sid = none →
      (reminder_fire t sid).2 = false)
    ∧ (∀ (t : BotState) (e' : Entry), lookupKey t.pendingResults sid = some e' →
        e'.unlocked = true → (reminder_fire t sid).2 = false)
    ∧ lookupKey (unlock_all s sid now).1.pendingReminders sid = none
    ∧ (reminder_fire (unlock_all s sid now).1 sid).2 = false := by
  refine ⟨?_, ?_, ?_, ?_⟩
  · intro t ht
    unfold reminder_fire
    rw [ht]
  · intro t e' ht hu
    unfold reminder_fire
    rw [ht]
    simp [hu]
  · rw [unlock_all_success he hfresh, lookupKey_removeKey_self]
  · rw [unlock_all_success he hfresh]
    unfold reminder_fire
    rw [lookupKey_insertKey_self]
    simp

/-- Witness for C7: unlocking a fresh entry at time 100 suppresses its
reminder. -/
theorem c7_reminder_guard_witness :
    (∀ t : BotState, lookupKey t.pendingResults "S1" = none →
      (reminder_fire t "S1").2 = false)
    ∧ (∀ (t : BotState) (e' : Entry), lookupKey t.pendingResults "S1" = some e' →
        e'.unlocked = true → (reminder_fire t "S1").2 = false)
    ∧ lookupKey (unlock_all ⟨[("S1", ⟨0, false, []⟩)], [("S1", 1500)]⟩ "S1" 100).1.pendingReminders
        "S1" = none
    ∧ (reminder_fire (unlock_all ⟨[("S1", ⟨0, false, []⟩)], [("S1", 1500)]⟩ "S1" 100).1 "S1").2
        = false :=
  c7_reminder_guard ⟨[("S1", ⟨0, false, []⟩)], [("S1", 1500)]⟩ "S1" 100 ⟨0, false, []⟩
    rfl (by norm_num [RESULTS_EXPIRATION_SECONDS])

/-- Counterexample to claim C8 as stated: the paid-search insertion path
stores the entry but schedules no reminder timer — the registry stays
empty, against the claim that every insertion path schedules a reminder
at `now + 25*60`. -/
theorem c8_counterexample :
    lookupKey (execute_paid_search_store ⟨[], []⟩ "S1" [] 0).pendingReminders "S1" = none
    ∧ lookupKey (execute_paid_search_store ⟨[], []⟩ "S1" [] 0).pendingResults "S1"
        = some ⟨0, false, []⟩ :=
  ⟨rfl, rfl⟩

/-- Claim C8 as amended: both insertion paths create the entry with
`unlocked = false` and `createdAt = now`; the free path additionally
registers exactly one reminder timer firing at `now + 25*60`, while the
paid path leaves the reminder registry untouched; dict-keyed registration
keeps at most one timer per search id. -/
theorem c8_insertion_paths (s : BotState) (sid : String)
    (items : List (Nat × String)) (now : ℚ) :
    lookupKey (execute_free_search_store s sid items now).pendingResults sid
      = some ⟨now, false, items⟩
    ∧ lookupKey (execute_free_search_store s sid items now).pendingReminders sid
        = some (now + REMINDER_DELAY_SECONDS)
    ∧ lookupKey (execute_paid_search_store s sid items now).pendingResults sid
        = some ⟨now, false, items⟩
    ∧ (execute_paid_search_store s sid items now).pendingReminders = s.pendingReminders
    ∧ (KeysNodup s.pendingReminders →
        KeysNodup (execute_free_search_store s sid items now).pendingReminders) := by
  refine ⟨?_, ?_, ?_, rfl, ?_⟩
  · exact lookupKey_insertKey_self _ _ _
  · exact lookupKey_insertKey_self _ _ _
  · exact lookupKey_insertKey_self _ _ _
  · intro h
    exact keysNodup_insertKey _ _ _ h

/-- Witness for the amended C8: inserting into the empty store. -/
theorem c8_insertion_paths_witness :
    lookupKey (execute_free_search_store ⟨[], []⟩ "S1" [] 0).pendingResults "S1"
      = some ⟨0, false, []⟩
    ∧ lookupKey (execute_free_search_store ⟨[], []⟩ "S1" [] 0).pendingReminders "S1"
        = some (0 + REMINDER_DELAY_SECONDS)
    ∧ KeysNodup (execute_free_search_store ⟨[], []⟩ "S1" [] 0).pendingReminders :=
  ⟨(c8_insertion_paths ⟨[], []⟩ "S1" [] 0).1,
   (c8_insertion_paths ⟨[], []⟩ "S1" [] 0).2.1,
   (c8_insertion_paths ⟨[], []⟩ "S1" [] 0).2.2.2.2 (by simp [KeysNodup])⟩

/-! ## Single-flight gate proofs -/

/-- Cancellation of a final singleton on both sides of an append
equation. -/
lemma snoc_inj {α : Type} {l1 l2 : List α} {a b : α}
    (h : l1 ++ [a] = l2 ++ [b]) : l1 = l2 ∧ a = b := by
  have h' := List.append_inj' h (by simp)
  exact ⟨h'.1, by simpa using h'.2⟩

/-- Decompose `tr ++ [c] = u ++ a :: v`: either `v` is empty and the
final element is `a`, or `v` itself ends in `c`. -/
lemma snoc_eq_append_cases {α : Type} {tr u v : List α} {a c : α}
    (h : tr ++ [c] = u ++ a :: v) :
    (v = [] ∧ tr = u ∧ a = c) ∨ ∃ v', v = v' ++ [c] ∧ tr = u ++ a :: v' := by
  rcases List.eq_nil_or_concat v with rfl | ⟨v', c', rfl⟩
  · left
    obtain ⟨h1, h2⟩ := snoc_inj h
    exact ⟨rfl, h1, h2.symm⟩
  · right
    have h' : tr ++ [c] = (u ++ a :: v') ++ [c'] := by
      simpa [List.append_assoc] using h
    obtain ⟨h1, h2⟩ := snoc_inj h'
    exact ⟨v', by rw [List.concat_eq_append, h2], h1⟩

/-- The empty trace has no interleaving pattern. -/
lemma noInterleave_nil : noInterleave ([] : List Bool) := by
  intro u v w x a b h
  have hlen := congrArg List.length h
  simp only [List.length_nil, List.length_append, List.length_cons] at hlen
  exact absurd hlen (by omega)

/-- A task that never emitted satisfies the suffix-homogeneity property
vacuously. -/
lemma suffixHomog_of_not_mem {i : Bool} {tr : List Bool} (h : i ∉ tr) :
    suffixHomog i tr := by
  intro u v heq
  exact absurd (heq ▸ List.mem_append_right u (List.mem_cons_self i v)) h

/-- Appending the lock holder's own event preserves suffix homogeneity. -/
lemma suffixHomog_snoc {i : Bool} {tr : List Bool} (h : suffixHomog i tr) :
    suffixHomog i (tr ++ [i]) := by
  intro u v heq x hx
  rcases snoc_eq_append_cases heq with ⟨rfl, _, _⟩ | ⟨v', rfl, htr⟩
  · exact absurd hx (List.not_mem_nil x)
  · rcases List.mem_append.mp hx with hx' | hx'
    · exact h u v' htr x hx'
    · simpa using hx'

/-- Appending the lock holder's own event preserves the no-interleaving
property. -/
lemma noInterleave_snoc {i : Bool} {tr : List Bool}
    (h1 : noInterleave tr) (h2 : suffixHomog i tr) :
    noInterleave (tr ++ [i]) := by
  intro u v w x a b heq
  have heq' : tr ++ [i] = (u ++ a :: v ++ b :: w) ++ a :: x := by
    simpa [List.append_assoc] using heq
  rcases snoc_eq_append_cases heq' with ⟨rfl, htr, rfl⟩ | ⟨x', rfl, htr⟩
  · have hall := h2 u (v ++ b :: w) (by simpa [List.append_assoc] using htr)
    exact (hall b (by simp)).symm
  · exact h1 u v w x' a b (by simpa [List.append_assoc] using htr)

/-- Reading the program counter through a lock update. -/
lemma pcOf_lockSet (s : GateState) (l : Option Bool) (j : Bool) :
    pcOf { s with lock := l } j = pcOf s j := by
  cases j <;> rfl

/-- Reading the program counter through `setPc`. -/
lemma pcOf_setPc (s : GateState) (i : Bool) (p : TaskPc) (j : Bool) :
    pcOf (setPc s i p) j = if j = i then p else pcOf s j := by
  cases i <;> cases j <;> simp [pcOf, setPc]

/-- `setPc` does not touch the lock. -/
lemma setPc_lock (s : GateState) (i : Bool) (p : TaskPc) :
    (setPc s i p).lock = s.lock := by
  cases i <;> rfl

/-- One gate step preserves the invariant. -/
lemma gate_step_inv {s : GateState} {tr : List Bool} {s' : GateState} {tr' : List Bool}
    (hs : GateStep s tr s' tr') (hinv : GateInv s tr) : GateInv s' tr' := by
  obtain ⟨hNI, hIdle, hHom, hRun⟩ := hinv
  cases hs with
  | acquire i k hlock hpc =>
    refine ⟨hNI, ?_, ?_, ?_⟩
    · intro j hj
      rw [pcOf_lockSet, pcOf_setPc] at hj
      by_cases hji : j = i
      · rw [if_pos hji] at hj
        exact absurd hj (by simp)
      · rw [if_neg hji] at hj
        exact hIdle j hj
    · intro j hj
      simp only at hj
      have hji : j = i := by simpa using hj.symm
      subst hji
      exact suffixHomog_of_not_mem (hIdle j hpc)
    · intro j k' hj
      rw [pcOf_lockSet, pcOf_setPc] at hj
      by_cases hji : j = i
      · simp [hji]
      · rw [if_neg hji] at hj
        have := hRun j k' hj
        rw [hlock] at this
        exact absurd this (by simp)
  | emit i k hlock hpc =>
    refine ⟨noInterleave_snoc hNI (hHom i hlock), ?_, ?_, ?_⟩
    · intro j hj
      rw [pcOf_setPc] at hj
      by_cases hji : j = i
      · rw [if_pos hji] at hj
        exact absurd hj (by simp)
      · rw [if_neg hji] at hj
        have := hIdle j hj
        simp only [List.mem_append, List.mem_singleton]
        rintro (hmem | rfl)
        · exact this hmem
        · exact hji rfl
    · intro j hj
      rw [setPc_lock] at hj
      have hji : j = i := (Option.some.inj (hlock.symm.trans hj)).symm
      subst hji
      exact suffixHomog_snoc (hHom j hlock)
    · intro j k' hj
      rw [pcOf_setPc] at hj
      rw [setPc_lock]
      by_cases hji : j = i
      · rw [hji]; exact hlock
      · rw [if_neg hji] at hj
        exact hRun j k' hj
  | release i hlock hpc =>
    refine ⟨hNI, ?_, ?_, ?_⟩
    · intro j hj
      rw [pcOf_lockSet, pcOf_setPc] at hj
      by_cases hji : j = i
      · rw [if_pos hji] at hj
        exact absurd hj (by simp)
      · rw [if_neg hji] at hj
        exact hIdle j hj
    · intro j hj
      simp only at hj
      exact absurd hj.symm (by simp)
    · intro j k' hj
      rw [pcOf_lockSet, pcOf_setPc] at hj
      by_cases hji : j = i
      · rw [if_pos hji] at hj
        exact absurd hj (by simp)
      · rw [if_neg hji] at hj
        have := hRun j k' hj
        rw [hlock] at this
        exact absurd (Option.some.inj this).symm hji

/-- Every reachable configuration satisfies the invariant. -/
lemma gate_reach_inv {s : GateState} {tr : List Bool} (h : GateReach s tr) :
    GateInv s tr := by
  induction h with
  | init =>
    refine ⟨noInterleave_nil, ?_, ?_, ?_⟩
    · intro j _
      exact List.not_mem_nil j
    · intro j hj
      exact absurd hj.symm (by simp)
    · intro j k hj
      cases j <;> exact absurd hj (by simp [pcOf])
  | step _ hs ih => exact gate_step_inv hs ih

/-- Claim C9: in every reachable trace of two concurrent `find_face`
callers, the network requests are never interleaved (in particular the
second caller's upload never falls between two requests of the first
caller's upload-and-poll sequence), and at most one caller's
upload-and-poll sequence is in flight at any time. -/
theorem c9_single_flight (s : GateState) (tr : List Bool) (h : GateReach s tr) :
    noInterleave tr
    ∧ (∀ (i j : Bool) (k k' : Nat),
        pcOf s i = .running k → pcOf s j = .running k' → i = j) := by
  obtain ⟨hNI, _, _, hRun⟩ := gate_reach_inv h
  refine ⟨hNI, fun i j k k' hi hj => ?_⟩
  have h1 := hRun i k hi
  have h2 := hRun j k' hj
  exact Option.some.inj (h1.symm.trans h2)

/-- Witness for C9: a complete serialized execution in which task `true`
uploads and finishes, then task `false` does — reaching the trace
`[true, false]`. -/
theorem c9_single_flight_witness :
    noInterleave [true, false]
    ∧ (∀ (i j : Bool) (k k' : Nat),
        pcOf ⟨none, .finished, .finished⟩ i = .running k →
        pcOf ⟨none, .finished, .finished⟩ j = .running k' → i = j) := by
  have h0 : GateReach ⟨none, .idle, .idle⟩ [] := GateReach.init
  have h1 := h0.step (GateStep.acquire true 0 rfl rfl)
  have h2 := h1.step (GateStep.emit true 0 rfl rfl)
  have h3 := h2.step (GateStep.release true rfl rfl)
  have h4 := h3.step (GateStep.acquire false 0 rfl rfl)
  have h5 := h4.step (GateStep.emit false 0 rfl rfl)
  have h6 := h5.step (GateStep.release false rfl rfl)
  exact c9_single_flight ⟨none, .finished, .finished⟩ [true, false] h6

end Faceeng
